import Mathlib

/-!
Verification of the HOA management application (React/TypeScript over a
hosted Postgres platform) against its natural-language specification.

The embedding models the data records as Lean structures (TypeScript union
types of string literals become Lean inductives or plain Strings, matching
how the code compares them), monetary amounts as exact integers, and each
side-effecting handler as a pure function from its inputs to the database
effects it issues (update payloads, insert rows, query filters).
-/

/-- Transaction type, mirroring the TypeScript union `'income' | 'expense'`
and the schema CHECK `type IN ('income', 'expense')`. -/
inductive TxType
  | income
  | expense
deriving DecidableEq, Repr

/-- A calendar date, standing for the `string` dates the code parses with
`new Date(...)`; comparison of valid dates is lexicographic on
(year, month, day). -/
structure Date where
  year : Nat
  month : Nat
  day : Nat
deriving DecidableEq, Repr

/-- `new Date(a) <= new Date(b)` for valid dates. -/
def dateLe (a b : Date) : Bool :=
  decide (a.year < b.year) ||
    (decide (a.year = b.year) &&
      (decide (a.month < b.month) ||
        (decide (a.month = b.month) && decide (a.day ≤ b.day))))

/-- A row of the `transactions` table as the `Transaction` type in
`src/lib/supabase.ts` declares it (fields the verified code reads). -/
structure Transaction where
  type : TxType
  category : String
  amount : Int
  transaction_date : Date
deriving DecidableEq, Repr

/-- A row of the `payments` table as the `Payment` type in
`src/lib/supabase.ts` declares it (fields the verified code reads);
`unit_number` stands for the optional `properties(unit_number, ...)` join
of the admin query. -/
structure Payment where
  id : String
  property_id : String
  amount : Int
  payment_type : String
  payment_date : Option String
  due_date : String
  status : String
  payment_method : Option String
  unit_number : Option String
deriving DecidableEq, Repr

/-- A row of `maintenance_requests` as the `MaintenanceRequest` type
declares it (fields the verified handlers read); `requested_by` is
nullable (`uuid REFERENCES profiles(id) ON DELETE SET NULL`). -/
structure MaintenanceRequest where
  id : String
  title : String
  category : String
  status : String
  priority : String
  requested_by : Option String
  estimated_cost : Option String
  scheduled_date : Option String
  assigned_vendor : Option String
deriving DecidableEq, Repr

/-- JavaScript truthiness of a `string | undefined` value:
`undefined` and the empty string are falsy. -/
def jsTruthy : Option String → Bool
  | some s => !(s == "")
  | none => false

/-- JavaScript `a || b` on `string | undefined` operands. -/
def jsOrElse (a : Option String) (b : Option String) : Option String :=
  if jsTruthy a then a else b

/-- JavaScript strict equality `a === b` between a `string | undefined`
value (such as `user?.id`) and a `string | null` value (such as
`requested_by`): two strings compare by value, and any comparison
involving `undefined` or `null` on one side and anything not
strictly identical on the other is false (`undefined === null` is false). -/
def jsStrictEq : Option String → Option String → Bool
  | some a, some b => a == b
  | _, _ => false

/-! ### C10 — balance sheet (`FinancialStatements.calculateBalanceSheet`) -/

/-- The `period` toggle of the financial-statements page. -/
inductive Period
  | current
  | ytd
deriving DecidableEq, Repr

/-- `filterByPeriod`: keeps transactions dated on or after the cutoff for
the selected period (`thirtyDaysAgo` for `'current'`, `yearStart` for
`'ytd'`). -/
def filterByPeriod (period : Period) (thirtyDaysAgo yearStart : Date)
    (ts : List Transaction) : List Transaction :=
  match period with
  | .current => ts.filter (fun t => dateLe thirtyDaysAgo t.transaction_date)
  | .ytd => ts.filter (fun t => dateLe yearStart t.transaction_date)

structure BSAssets where
  cash : Int
  accountsReceivable : Int
  total : Int
deriving DecidableEq, Repr

structure BSLiabilities where
  accountsPayable : Int
  total : Int
deriving DecidableEq, Repr

structure BSEquity where
  retainedEarnings : Int
  total : Int
deriving DecidableEq, Repr

/-- The `BalanceSheetData` shape returned by `calculateBalanceSheet`. -/
structure BalanceSheetData where
  assets : BSAssets
  liabilities : BSLiabilities
  equity : BSEquity
deriving DecidableEq, Repr

/-- `calculateBalanceSheet` from the financial-statements component. -/
def calculateBalanceSheet (period : Period) (thirtyDaysAgo yearStart : Date)
    (transactions : List Transaction) (payments : List Payment) :
    BalanceSheetData :=
  let filteredTransactions := filterByPeriod period thirtyDaysAgo yearStart transactions
  let totalIncome :=
    (filteredTransactions.filter (fun t => decide (t.type = TxType.income))).foldl
      (fun sum t => sum + t.amount) 0
  let totalExpenses :=
    (filteredTransactions.filter (fun t => decide (t.type = TxType.expense))).foldl
      (fun sum t => sum + t.amount) 0
  let pendingPayments :=
    (payments.filter (fun p => p.status == "pending" || p.status == "overdue")).foldl
      (fun sum p => sum + p.amount) 0
  let cash := totalIncome - totalExpenses
  let accountsReceivable := pendingPayments
  let assets := cash + accountsReceivable
  let accountsPayable : Int := 0
  let liabilities := accountsPayable
  let retainedEarnings := assets - liabilities
  { assets := { cash := cash, accountsReceivable := accountsReceivable, total := assets }
    liabilities := { accountsPayable := accountsPayable, total := liabilities }
    equity := { retainedEarnings := retainedEarnings, total := retainedEarnings } }

/-! ### C9 — pending totals (Dashboard vs. payments page) -/

/-- The Dashboard's `pendingPayments` figure: the rows fetched with
`.eq('status', 'pending')` reduced by summing `amount`. -/
def dashboardPendingPayments (payments : List Payment) : Int :=
  (payments.filter (fun p => p.status == "pending")).foldl
    (fun sum p => sum + p.amount) 0

/-- The payments page's `totalPending` figure: payments whose status is
`'pending'` or `'overdue'`, reduced by summing `amount`. -/
def totalPending (payments : List Payment) : Int :=
  (payments.filter (fun p => p.status == "pending" || p.status == "overdue")).foldl
    (fun sum p => sum + p.amount) 0

/-- Sum of amounts of the payments whose status is `'overdue'`. -/
def overdueSum (payments : List Payment) : Int :=
  ((payments.filter (fun p => p.status == "overdue")).map (·.amount)).sum

/-! ### C7 — profile role invariant -/

/-- The role values the sign-up form can submit: the `<select>` in
`LoginForm` offers exactly the options `resident` and `admin`, and the
`role` state is initialised to `'resident'`. -/
def loginFormRoleOptions : List String := ["resident", "admin"]

/-- The TypeScript union `'admin' | 'resident'` of `Profile.role`. -/
inductive ProfileRole
  | admin
  | resident
deriving DecidableEq, Repr

/-- The database string a `ProfileRole` value denotes. -/
def ProfileRole.toDbString : ProfileRole → String
  | .admin => "admin"
  | .resident => "resident"

/-- The role assigned by the `handle_new_user` trigger:
`COALESCE(NEW.raw_user_meta_data->>'role', 'resident')`. -/
def handleNewUserRole (metaRole : Option String) : String :=
  metaRole.getD "resident"

/-- The schema constraint `CHECK (role IN ('admin', 'resident'))` on
`profiles.role`. -/
def profilesRoleCheck (role : String) : Bool :=
  role == "admin" || role == "resident"

/-- Helper: a `reduce`-style sum equals the mapped list sum. -/
theorem foldl_add_amount_eq (f : Payment → Int) (l : List Payment) (init : Int) :
    l.foldl (fun sum p => sum + f p) init = init + (l.map f).sum := by
  induction l generalizing init with
  | nil => simp
  | cons p l ih => simp [List.foldl_cons, ih]; ring

/-- Helper: the transaction `reduce` sum equals the mapped list sum. -/
theorem foldl_add_txamount_eq (l : List Transaction) (init : Int) :
    l.foldl (fun sum t => sum + t.amount) init = init + (l.map (·.amount)).sum := by
  induction l generalizing init with
  | nil => simp
  | cons t l ih => simp [List.foldl_cons, ih]; ring

/-- C10 — Balance-sheet identity: for every input list of transactions and
payments and for both period selections, `calculateBalanceSheet` returns a
sheet in which `assets.total = assets.cash + assets.accountsReceivable`,
`equity.retainedEarnings = assets.total - liabilities.total`, and
`assets.total = liabilities.total + equity.total`. -/
theorem calculateBalanceSheet_balances (period : Period)
    (thirtyDaysAgo yearStart : Date) (transactions : List Transaction)
    (payments : List Payment) :
    let bs := calculateBalanceSheet period thirtyDaysAgo yearStart transactions payments
    bs.assets.total = bs.assets.cash + bs.assets.accountsReceivable ∧
    bs.equity.retainedEarnings = bs.assets.total - bs.liabilities.total ∧
    bs.assets.total = bs.liabilities.total + bs.equity.total := by
  refine ⟨rfl, ?_, ?_⟩ <;> simp [calculateBalanceSheet]

/-- C9 — The Dashboard's "Pending Payments" figure sums exactly the
`'pending'` payments (excluding `'overdue'`), the payments page's
`totalPending` sums `'pending'` and `'overdue'` payments, their difference
is the overdue sum, and the two figures agree exactly when the overdue
payments sum to zero. -/
theorem dashboard_vs_portal_pending (payments : List Payment) :
    dashboardPendingPayments payments =
      ((payments.filter (fun p => p.status == "pending")).map (·.amount)).sum ∧
    totalPending payments = dashboardPendingPayments payments + overdueSum payments ∧
    (dashboardPendingPayments payments = totalPending payments ↔
      overdueSum payments = 0) := by
  have hsplit : totalPending payments =
      dashboardPendingPayments payments + overdueSum payments := by
    unfold totalPending dashboardPendingPayments overdueSum
    rw [foldl_add_amount_eq, foldl_add_amount_eq]
    induction payments with
    | nil => simp
    | cons p l ih =>
      by_cases hp : p.status == "pending"
      · have hov : ¬(p.status == "overdue") := by
          simp only [beq_iff_eq] at hp ⊢; simp [hp]
        simp only [List.filter_cons, hp, hov, Bool.or_eq_true, or_false,
          if_pos, if_neg, Bool.false_eq_true, not_false_eq_true,
          List.map_cons, List.sum_cons] at *
        omega
      · by_cases hov : p.status == "overdue"
        · simp only [List.filter_cons, hp, hov, Bool.or_eq_true, false_or,
            if_pos, if_neg, Bool.false_eq_true, not_false_eq_true,
            List.map_cons, List.sum_cons] at *
          omega
        · simp only [List.filter_cons, hp, hov, Bool.or_eq_true, or_self,
            if_neg, Bool.false_eq_true, not_false_eq_true] at *
          omega
  refine ⟨by unfold dashboardPendingPayments; rw [foldl_add_amount_eq]; ring, hsplit, ?_⟩
  constructor
  · intro h; omega
  · intro h; omega

/-- C7 — Profile role invariant: the sign-up form only submits roles that
satisfy the schema check; the `handle_new_user` trigger assigns the
supplied role and defaults to `'resident'` when none is supplied; both
values of the TypeScript `Profile.role` union satisfy the check; and the
schema check accepts exactly `'admin'` and `'resident'`, so no profile row
holds any other role value. -/
theorem profile_role_invariant :
    (∀ r ∈ loginFormRoleOptions, profilesRoleCheck r = true) ∧
    handleNewUserRole none = "resident" ∧
    (∀ r, handleNewUserRole (some r) = r) ∧
    (∀ pr : ProfileRole, profilesRoleCheck pr.toDbString = true) ∧
    (∀ r, profilesRoleCheck r = true ↔ r = "admin" ∨ r = "resident") := by
  refine ⟨by decide, rfl, fun r => rfl, fun pr => by cases pr <;> rfl, fun r => ?_⟩
  unfold profilesRoleCheck
  constructor
  · intro h
    rcases Bool.or_eq_true_iff.mp h with h' | h' <;>
      [left; right] <;> exact (beq_iff_eq).mp h'
  · rintro (h | h) <;> simp [h]

/-- Witness for C7: the theorem applied at the concrete role `"admin"`
drawn from the sign-up form's options. -/
theorem profile_role_invariant_witness :
    profilesRoleCheck "admin" = true ∧ handleNewUserRole none = "resident" :=
  ⟨profile_role_invariant.1 "admin" (by decide), profile_role_invariant.2.1⟩

/-! ### C1 / C8 — maintenance-request mutations (`MaintenanceList.tsx`) -/

/-- One condition the code appends to a database query with `.eq(...)` /
`.in(...)` builder calls. -/
inductive QueryFilter
  | eqId (id : String)
  | eqRequestedBy (uid : Option String)
  | eqStatus (status : String)
  | eqOwner (uid : Option String)
  | inPropertyId (ids : List String)
deriving DecidableEq, Repr

/-- The filters `handleDelete` attaches to the
`maintenance_requests` delete: always `.eq('id', id)`; a non-admin caller
additionally appends `.eq('requested_by', user?.id).eq('status', 'pending')`. -/
def handleDeleteFilters (isAdmin : Bool) (uid : Option String) (id : String) :
    List QueryFilter :=
  let query := [QueryFilter.eqId id]
  if !isAdmin then
    query ++ [QueryFilter.eqRequestedBy uid, QueryFilter.eqStatus "pending"]
  else
    query

/-- The `formData` state of `MaintenanceForm` (all text inputs, so every
field is a string; empty string plays the role of "unset"). -/
structure MaintenanceFormData where
  title : String
  description : String
  category : String
  priority : String
  status : String
  estimated_cost : String
  scheduled_date : String
  assigned_vendor : String
deriving DecidableEq, Repr

/-- The payload `MaintenanceForm.handleSubmit` writes.  The numeric
`estimated_cost` is represented by the string the source passes to
`parseFloat`; `none` models the `null` the code substitutes. -/
structure MaintenancePayload where
  title : String
  description : String
  category : String
  priority : String
  estimated_cost : Option String
  scheduled_date : Option String
  assigned_vendor : Option String
  requested_by : Option String
  status : String
deriving DecidableEq, Repr

/-- The payload construction of `MaintenanceForm.handleSubmit`:
admin-only fields fall back to `null` for non-admins, `requested_by`
is `editingRequest?.requested_by ?? user?.id`, and the status is forced
to `'pending'` for non-admins. -/
def buildMaintenancePayload (isAdmin : Bool) (formData : MaintenanceFormData)
    (editingRequest : Option MaintenanceRequest) (uid : Option String) :
    MaintenancePayload :=
  { title := formData.title
    description := formData.description
    category := formData.category
    priority := formData.priority
    estimated_cost :=
      if isAdmin then
        (if jsTruthy (some formData.estimated_cost) then some formData.estimated_cost else none)
      else none
    scheduled_date :=
      if isAdmin then
        (if jsTruthy (some formData.scheduled_date) then some formData.scheduled_date else none)
      else none
    assigned_vendor :=
      if isAdmin then
        (if jsTruthy (some formData.assigned_vendor) then some formData.assigned_vendor else none)
      else none
    requested_by :=
      match editingRequest with
      | some e =>
        match e.requested_by with
        | some r => some r
        | none => uid
      | none => uid
    status := if isAdmin then formData.status else "pending" }

/-- The editing branch of `MaintenanceForm.handleSubmit`: when the caller
is an admin, or the request belongs to them (`user?.id ===
editingRequest.requested_by`) and is still `'pending'`, an update with the
payload and the role-dependent filters is issued; otherwise no update is
issued and the error `'You do not have permission to update this
request.'` is thrown. -/
def submitEditEffect (isAdmin : Bool) (uid : Option String)
    (formData : MaintenanceFormData) (editingRequest : MaintenanceRequest) :
    Except String (MaintenancePayload × List QueryFilter) :=
  let payload := buildMaintenancePayload isAdmin formData (some editingRequest) uid
  if isAdmin ||
      (jsStrictEq uid editingRequest.requested_by &&
        editingRequest.status == "pending") then
    let query := [QueryFilter.eqId editingRequest.id]
    let filters :=
      if !isAdmin then
        query ++ [QueryFilter.eqRequestedBy uid, QueryFilter.eqStatus "pending"]
      else
        query
    .ok (payload, filters)
  else
    .error "You do not have permission to update this request."

/-- The create branch of `MaintenanceForm.handleSubmit`: an insert of the
payload built from the form state. -/
def submitCreateEffect (isAdmin : Bool) (uid : Option String)
    (formData : MaintenanceFormData) : MaintenancePayload :=
  buildMaintenancePayload isAdmin formData none uid

/-- C1 — Role-gated maintenance mutations: a non-admin's delete is
filtered to the row id, the caller's `requested_by`, and `'pending'`
status, while an admin's delete is filtered by id only; a non-admin's
edit of a request that does not belong to them or is not `'pending'`
issues no update and fails with the permission error; and an admin's
edit is always issued. -/
theorem maintenance_role_gated_mutations :
    (∀ uid id, handleDeleteFilters false uid id =
      [QueryFilter.eqId id, QueryFilter.eqRequestedBy uid,
        QueryFilter.eqStatus "pending"]) ∧
    (∀ uid id, handleDeleteFilters true uid id = [QueryFilter.eqId id]) ∧
    (∀ uid formData e,
      ¬(jsStrictEq uid e.requested_by = true ∧ e.status = "pending") →
      submitEditEffect false uid formData e =
        .error "You do not have permission to update this request.") ∧
    (∀ uid formData e, submitEditEffect true uid formData e =
      .ok (buildMaintenancePayload true formData (some e) uid,
        [QueryFilter.eqId e.id])) ∧
    (∀ uid formData e, jsStrictEq uid e.requested_by = true →
      e.status = "pending" →
      submitEditEffect false uid formData e =
        .ok (buildMaintenancePayload false formData (some e) uid,
          [QueryFilter.eqId e.id, QueryFilter.eqRequestedBy uid,
            QueryFilter.eqStatus "pending"])) := by
  refine ⟨fun uid id => rfl, fun uid id => rfl, ?_, fun uid formData e => rfl, ?_⟩
  · intro uid formData e h
    unfold submitEditEffect
    have hcond : (jsStrictEq uid e.requested_by && e.status == "pending") = false := by
      rcases Bool.eq_false_or_eq_true (jsStrictEq uid e.requested_by) with hq | hq
      · have : ¬(e.status = "pending") := fun hs => h ⟨hq, hs⟩
        simp [hq, this]
      · simp [hq]
    simp [hcond]
  · intro uid formData e hq hs
    unfold submitEditEffect
    simp [hq, hs]

/-- A sample form state, used as a concrete input in witnesses. -/
def sampleFormData : MaintenanceFormData :=
  { title := "t"
    description := ""
    category := "repairs"
    priority := "medium"
    status := "pending"
    estimated_cost := ""
    scheduled_date := ""
    assigned_vendor := "" }

/-- A sample pending maintenance request owned by user `u1`. -/
def sampleRequest : MaintenanceRequest :=
  { id := "r1"
    title := "Leak"
    category := "repairs"
    status := "pending"
    priority := "medium"
    requested_by := some "u1"
    estimated_cost := none
    scheduled_date := none
    assigned_vendor := none }

/-- Witness for C1: a resident (id `u2`) editing another resident's
pending request is rejected with the permission error, a resident editing
their own pending request issues the filtered update, and deletes carry
the role-dependent filters. -/
theorem maintenance_role_gated_mutations_witness :
    submitEditEffect false (some "u2") sampleFormData sampleRequest =
      .error "You do not have permission to update this request." ∧
    submitEditEffect false (some "u1") sampleFormData sampleRequest =
      .ok (buildMaintenancePayload false sampleFormData (some sampleRequest) (some "u1"),
        [QueryFilter.eqId "r1", QueryFilter.eqRequestedBy (some "u1"),
          QueryFilter.eqStatus "pending"]) ∧
    handleDeleteFilters false (some "u1") "r1" =
      [QueryFilter.eqId "r1", QueryFilter.eqRequestedBy (some "u1"),
        QueryFilter.eqStatus "pending"] :=
  ⟨maintenance_role_gated_mutations.2.2.1 (some "u2") sampleFormData sampleRequest
      (by decide),
    maintenance_role_gated_mutations.2.2.2.2 (some "u1") sampleFormData sampleRequest
      (by decide) rfl,
    maintenance_role_gated_mutations.1 (some "u1") "r1"⟩

/-- A pending maintenance request whose requester profile has been
deleted, so `requested_by` is null (the schema declares
`requested_by uuid REFERENCES profiles(id) ON DELETE SET NULL`). -/
def orphanRequest : MaintenanceRequest :=
  { id := "r2"
    title := "Fence"
    category := "repairs"
    status := "pending"
    priority := "low"
    requested_by := none
    estimated_cost := none
    scheduled_date := none
    assigned_vendor := none }

/-- Counterexample to C8: editing a request whose `requested_by` is null
produces a payload whose `requested_by` is the editing user's id, not the
original request's value — `editingRequest?.requested_by ?? user?.id`
falls through the nullish coalescing to `user?.id`. -/
theorem resident_normalization_counterexample :
    orphanRequest.requested_by = none ∧
    (buildMaintenancePayload true sampleFormData (some orphanRequest)
      (some "u1")).requested_by = some "u1" ∧
    (buildMaintenancePayload true sampleFormData (some orphanRequest)
      (some "u1")).requested_by ≠ orphanRequest.requested_by := by
  refine ⟨rfl, rfl, ?_⟩; decide

/-- C8 (amended) — Resident submissions are normalized and the requester
is preserved when non-null: every non-admin create or edit payload has
status `'pending'` and null `estimated_cost`, `scheduled_date` and
`assigned_vendor`; and for every edit, the payload's `requested_by`
equals the original request's `requested_by` when that is non-null, while
an edit of a request whose `requested_by` is null sets it to the editing
user's id. -/
theorem resident_normalization_amended :
    (∀ formData editingRequest uid,
      (buildMaintenancePayload false formData editingRequest uid).status = "pending" ∧
      (buildMaintenancePayload false formData editingRequest uid).estimated_cost = none ∧
      (buildMaintenancePayload false formData editingRequest uid).scheduled_date = none ∧
      (buildMaintenancePayload false formData editingRequest uid).assigned_vendor = none) ∧
    (∀ isAdmin formData e uid r, e.requested_by = some r →
      (buildMaintenancePayload isAdmin formData (some e) uid).requested_by = some r) ∧
    (∀ isAdmin formData e uid, e.requested_by = none →
      (buildMaintenancePayload isAdmin formData (some e) uid).requested_by = uid) := by
  refine ⟨fun formData editingRequest uid => ⟨rfl, rfl, rfl, rfl⟩, ?_, ?_⟩
  · intro isAdmin formData e uid r hr
    simp [buildMaintenancePayload, hr]
  · intro isAdmin formData e uid hr
    simp [buildMaintenancePayload, hr]

/-- Witness for C8 (amended): the theorem applied to the concrete sample
request (`requested_by = u1`) and the orphaned request
(`requested_by = null`). -/
theorem resident_normalization_amended_witness :
    (buildMaintenancePayload false sampleFormData none (some "u1")).status = "pending" ∧
    (buildMaintenancePayload true sampleFormData (some sampleRequest)
      (some "u2")).requested_by = some "u1" ∧
    (buildMaintenancePayload true sampleFormData (some orphanRequest)
      (some "u2")).requested_by = some "u2" :=
  ⟨(resident_normalization_amended.1 sampleFormData none (some "u1")).1,
    resident_normalization_amended.2.1 true sampleFormData sampleRequest
      (some "u2") "u1" rfl,
    resident_normalization_amended.2.2 true sampleFormData orphanRequest
      (some "u2") rfl⟩

/-! ### C2 / C4 — payment status updates (`PaymentPortal.tsx`) -/

/-- The `updateData` object sent to `payments.update(...)`; `none` models
a field that is absent from the object. -/
structure PaymentUpdateData where
  status : String
  payment_date : Option String
  payment_method : Option String
deriving DecidableEq, Repr

/-- The row inserted into `transactions` by the paid transition. -/
structure TransactionInsertRow where
  type : TxType
  category : String
  amount : Int
  description : String
  transaction_date : String
  property_id : String
  payment_method : Option String
  created_by : Option String
deriving DecidableEq, Repr

/-- JavaScript `String.prototype.replace('_', ' ')`: replaces only the
first underscore. -/
def replaceFirstUnderscore : List Char → List Char
  | [] => []
  | c :: cs => if c = '_' then ' ' :: cs else c :: replaceFirstUnderscore cs

/-- `s.replace('_', ' ')` on a string. -/
def jsReplaceUnderscoreOnce (s : String) : String :=
  String.mk (replaceFirstUnderscore s.data)

/-- The current (new) `handlePaymentStatusUpdate` of `PaymentPortal.tsx`:
returns the `payments` update payload and the list of `transactions`
inserts it issues.  `today` stands for
`new Date().toISOString().split('T')[0]` and `uid` for `user?.id`. -/
def handlePaymentStatusUpdate (payments : List Payment) (paymentId status : String)
    (paymentMethod : Option String) (today : String) (uid : Option String) :
    PaymentUpdateData × List TransactionInsertRow :=
  let updateData : PaymentUpdateData :=
    if status == "paid" then
      { status := status
        payment_date := some today
        payment_method := if jsTruthy paymentMethod then paymentMethod else none }
    else
      { status := status, payment_date := none, payment_method := none }
  let inserts : List TransactionInsertRow :=
    match payments.find? (fun p => p.id == paymentId) with
    | some payment =>
      if status == "paid" then
        [{ type := TxType.income
           category := if payment.payment_type == "monthly_dues" then "hoa_fees"
             else "other_income"
           amount := payment.amount
           description := "Payment for " ++
             jsReplaceUnderscoreOnce payment.payment_type ++ " - " ++
             (jsOrElse payment.unit_number (some "Property")).getD ""
           transaction_date := today
           property_id := payment.property_id
           payment_method := jsOrElse paymentMethod payment.payment_method
           created_by := uid }]
      else []
    | none => []
  (updateData, inserts)

/-- The old `handlePaymentStatusUpdate` (the second `PaymentPortal`
implementation in the same module): it only updates the payment row —
it takes no payment method and never inserts a transaction.  In both
implementations the update is filtered by `.eq('id', paymentId)` on the
same `paymentId` argument, so the effects compare on the update payload
and the issued inserts. -/
def handlePaymentStatusUpdateOld (paymentId status : String) (today : String) :
    PaymentUpdateData × List TransactionInsertRow :=
  let _ := paymentId
  let updateData : PaymentUpdateData :=
    if status == "paid" then
      { status := status, payment_date := some today, payment_method := none }
    else
      { status := status, payment_date := none, payment_method := none }
  (updateData, [])

/-- C2 — Paid-status transition inserts a ledger transaction: for a
payment present in the loaded list, updating it to `'paid'` sets
`payment_date` to the current date, records the chosen payment method
(when one is chosen), and inserts exactly one `'income'` transaction
whose amount is the payment's amount and whose category is `'hoa_fees'`
for `'monthly_dues'` payments and `'other_income'` otherwise; updating
to any other status inserts no transaction. -/
theorem paid_transition_inserts_transaction (payments : List Payment)
    (payment : Payment) (paymentId status : String) (paymentMethod : Option String)
    (today : String) (uid : Option String)
    (hfind : payments.find? (fun p => p.id == paymentId) = some payment) :
    (status = "paid" →
      (handlePaymentStatusUpdate payments paymentId status paymentMethod
        today uid).1.payment_date = some today ∧
      (∀ m, paymentMethod = some m → m ≠ "" →
        (handlePaymentStatusUpdate payments paymentId status paymentMethod
          today uid).1.payment_method = some m) ∧
      (handlePaymentStatusUpdate payments paymentId status paymentMethod
        today uid).2.length = 1 ∧
      (∀ t ∈ (handlePaymentStatusUpdate payments paymentId status paymentMethod
          today uid).2,
        t.type = TxType.income ∧ t.amount = payment.amount ∧
        t.category = (if payment.payment_type == "monthly_dues" then "hoa_fees"
          else "other_income"))) ∧
    (status ≠ "paid" →
      (handlePaymentStatusUpdate payments paymentId status paymentMethod
        today uid).2 = []) := by
  constructor
  · intro hpaid
    subst hpaid
    refine ⟨by simp [handlePaymentStatusUpdate], ?_, ?_, ?_⟩
    · intro m hm hne
      simp [handlePaymentStatusUpdate, hm, jsTruthy, hne]
    · simp [handlePaymentStatusUpdate, hfind]
    · intro t ht
      simp only [handlePaymentStatusUpdate, hfind, beq_self_eq_true, if_pos,
        List.mem_singleton] at ht
      subst ht
      exact ⟨rfl, rfl, rfl⟩
  · intro hnot
    have hstatus : (status == "paid") = false := by
      simp [hnot]
    simp [handlePaymentStatusUpdate, hfind, hstatus]

/-- A sample monthly-dues payment, used as a concrete input. -/
def samplePayment : Payment :=
  { id := "p1"
    property_id := "pr1"
    amount := 250
    payment_type := "monthly_dues"
    payment_date := none
    due_date := "2026-01-01"
    status := "pending"
    payment_method := none
    unit_number := some "101" }

/-- Witness for C2: marking the sample payment paid with method
`'online'` issues one `hoa_fees` income insert of the payment's amount;
marking it `'cancelled'` issues none. -/
theorem paid_transition_inserts_transaction_witness :
    ([samplePayment].find? (fun p => p.id == "p1") = some samplePayment) ∧
    (handlePaymentStatusUpdate [samplePayment] "p1" "paid" (some "online")
      "2026-02-01" (some "u1")).2.length = 1 ∧
    (handlePaymentStatusUpdate [samplePayment] "p1" "cancelled" none
      "2026-02-01" (some "u1")).2 = [] := by
  have hfind : [samplePayment].find? (fun p => p.id == "p1") = some samplePayment := by
    decide
  refine ⟨hfind, ?_, ?_⟩
  · exact ((paid_transition_inserts_transaction [samplePayment] samplePayment "p1"
      "paid" (some "online") "2026-02-01" (some "u1") hfind).1 rfl).2.2.1
  · exact (paid_transition_inserts_transaction [samplePayment] samplePayment "p1"
      "cancelled" none "2026-02-01" (some "u1") hfind).2 (by decide)

/-- Counterexample to C4: on the `'paid'` transition for a payment present
in the loaded list, the two `handlePaymentStatusUpdate` implementations do
not issue the same mutations — the new one inserts a ledger transaction
and the old one inserts nothing. -/
theorem paymentportal_versions_counterexample :
    (handlePaymentStatusUpdate [samplePayment] "p1" "paid" none
      "2026-02-01" none).2.length = 1 ∧
    (handlePaymentStatusUpdateOld "p1" "paid" "2026-02-01").2 = [] ∧
    handlePaymentStatusUpdate [samplePayment] "p1" "paid" none "2026-02-01" none ≠
      handlePaymentStatusUpdateOld "p1" "paid" "2026-02-01" := by
  refine ⟨rfl, rfl, ?_⟩; decide

/-- C4 (amended) — The two `PaymentPortal` implementations agree exactly
off the paid transition: for every status other than `'paid'` (with no
payment method supplied) they issue identical mutations; on the `'paid'`
transition both set `payment_date` to the current date, but only the new
implementation inserts the ledger transaction (exactly one when the
payment is present in the loaded list), while the old implementation
never inserts any transaction. -/
theorem paymentportal_versions_amended :
    (∀ payments paymentId status today uid, status ≠ "paid" →
      handlePaymentStatusUpdate payments paymentId status none today uid =
        handlePaymentStatusUpdateOld paymentId status today) ∧
    (∀ paymentId status today,
      (handlePaymentStatusUpdateOld paymentId status today).2 = []) ∧
    (∀ payments payment paymentId paymentMethod today uid,
      payments.find? (fun p => p.id == paymentId) = some payment →
      (handlePaymentStatusUpdate payments paymentId "paid" paymentMethod
        today uid).2.length = 1) ∧
    (∀ payments paymentId paymentMethod today uid,
      (handlePaymentStatusUpdate payments paymentId "paid" paymentMethod
        today uid).1.payment_date = some today ∧
      (handlePaymentStatusUpdateOld paymentId "paid" today).1.payment_date =
        some today) := by
  refine ⟨?_, fun paymentId status today => rfl, ?_, ?_⟩
  · intro payments paymentId status today uid hnot
    have hstatus : (status == "paid") = false := by simp [hnot]
    unfold handlePaymentStatusUpdate handlePaymentStatusUpdateOld
    cases hfind : payments.find? (fun p => p.id == paymentId) <;>
      simp [hstatus]
  · intro payments payment paymentId paymentMethod today uid hfind
    simp [handlePaymentStatusUpdate, hfind]
  · intro payments paymentId paymentMethod today uid
    constructor <;> simp [handlePaymentStatusUpdate, handlePaymentStatusUpdateOld]

/-- Witness for C4 (amended): the theorem applied at concrete inputs —
a `'cancelled'` update where both implementations coincide, and the
`'paid'` update of the sample payment where the new implementation
issues exactly one insert. -/
theorem paymentportal_versions_amended_witness :
    handlePaymentStatusUpdate [samplePayment] "p1" "cancelled" none
      "2026-02-01" none = handlePaymentStatusUpdateOld "p1" "cancelled" "2026-02-01" ∧
    (handlePaymentStatusUpdate [samplePayment] "p1" "paid" (some "online")
      "2026-02-01" none).2.length = 1 :=
  ⟨paymentportal_versions_amended.1 [samplePayment] "p1" "cancelled"
      "2026-02-01" none (by decide),
    paymentportal_versions_amended.2.2.1 [samplePayment] samplePayment "p1"
      (some "online") "2026-02-01" none (by decide)⟩

/-! ### C3 — whether application code adds role-dependent filters -/

/-- A query the application issues: the table read and the filters the
application code itself attaches (beyond whatever row-level security the
database applies). -/
structure DbQuery where
  table : String
  filters : List QueryFilter
deriving DecidableEq, Repr

/-- The filters `MaintenanceList.loadRequests` attaches to its
`maintenance_requests` select: none for an admin, and
`.eq('requested_by', user.id)` for any other caller. -/
def loadRequestsFilters (isAdmin : Bool) (uid : String) : List QueryFilter :=
  if !isAdmin then [QueryFilter.eqRequestedBy (some uid)] else []

/-- The queries `PaymentPortal.loadData` issues.  An admin loads all
payments (with the properties join) and all properties; a resident loads
their own properties (`.eq('owner_id', user?.id)`) and then, only when
they own at least one, the payments of those properties
(`.in('property_id', propertyIds)`). -/
def loadDataQueries (isAdmin : Bool) (uid : Option String)
    (ownedPropertyIds : List String) : List DbQuery :=
  if isAdmin then
    [{ table := "payments", filters := [] },
      { table := "properties", filters := [] }]
  else
    { table := "properties", filters := [QueryFilter.eqOwner uid] } ::
      (if ownedPropertyIds.isEmpty then []
        else [{ table := "payments", filters := [QueryFilter.inPropertyId ownedPropertyIds] }])

/-- Counterexample to C3: an admin and a resident caller of the same page
do not issue the same queries — on the maintenance page the resident's
load carries a `requested_by` filter the admin's lacks, and on the
payments page the two roles issue different query lists. -/
theorem rls_only_authorization_counterexample :
    loadRequestsFilters true "u1" = [] ∧
    loadRequestsFilters false "u1" = [QueryFilter.eqRequestedBy (some "u1")] ∧
    loadRequestsFilters true "u1" ≠ loadRequestsFilters false "u1" ∧
    loadDataQueries true (some "u1") ["pr1"] ≠
      loadDataQueries false (some "u1") ["pr1"] := by
  refine ⟨rfl, rfl, ?_, ?_⟩ <;> decide

/-- C3 (amended) — Authorization is not left to row-level security alone:
application code adds role-dependent filters.  A non-admin's
maintenance-request load is filtered to `requested_by = user.id` while an
admin's is unfiltered; and the payments page issues different query lists
for admin and resident callers, the resident's being derived from an
owner-filtered properties lookup.  So for any caller id, the admin and
resident query plans of the same page differ. -/
theorem rls_only_authorization_amended :
    (∀ uid, loadRequestsFilters false uid = [QueryFilter.eqRequestedBy (some uid)]) ∧
    (∀ uid, loadRequestsFilters true uid = []) ∧
    (∀ uid, loadRequestsFilters true uid ≠ loadRequestsFilters false uid) ∧
    (∀ uid ownedPropertyIds,
      loadDataQueries true uid ownedPropertyIds ≠
        loadDataQueries false uid ownedPropertyIds) := by
  refine ⟨fun uid => rfl, fun uid => rfl, fun uid => by simp [loadRequestsFilters], ?_⟩
  intro uid ownedPropertyIds h
  simp [loadDataQueries] at h

/-! ### Grouping machinery shared by the reporting rollups

The reports page accumulates rollups with the JavaScript pattern

  if (!map.has(k)) map.set(k, zero); map.get(k) upd ...

over a `Map` that preserves insertion order.  We model the map as an
association list with distinct keys: an update rewrites the stored value
in place and a miss appends a fresh entry. -/

section Grouping

variable {κ υ : Type} [DecidableEq κ]

/-- The value stored for key `k` in an association list. -/
def findVal (k : κ) (l : List (κ × υ)) : Option υ :=
  (l.find? (fun e => decide (e.1 = k))).map (·.2)

variable (key : Transaction → κ) (upd : υ → Transaction → υ)
variable (start : Transaction → υ)

/-- One step of the `forEach` grouping loop: a present key has its value
updated in place, a missing key appends a fresh entry at the end. -/
def groupStep (acc : List (κ × υ)) (t : Transaction) : List (κ × υ) :=
  if (acc.find? (fun e => decide (e.1 = key t))).isSome then
    acc.map (fun e => if e.1 = key t then (e.1, upd e.2 t) else e)
  else
    acc ++ [(key t, start t)]

/-- The whole grouping loop, started from the empty map. -/
def groupFold (ts : List Transaction) : List (κ × υ) :=
  ts.foldl (groupStep key upd start) []

theorem find?_map_keyfix (l : List (κ × υ)) (f : κ × υ → κ × υ)
    (hf : ∀ e, (f e).1 = e.1) (k : κ) :
    (l.map f).find? (fun e => decide (e.1 = k)) =
      (l.find? (fun e => decide (e.1 = k))).map f := by
  induction l with
  | nil => rfl
  | cons e l ih =>
    by_cases hk : e.1 = k
    · rw [List.map_cons, List.find?_cons_of_pos _ (by simp [hf, hk]),
        List.find?_cons_of_pos _ (by simp [hk])]
      rfl
    · rw [List.map_cons, List.find?_cons_of_neg _ (by simp [hf, hk]),
        List.find?_cons_of_neg _ (by simp [hk]), ih]

theorem findVal_groupStep (acc : List (κ × υ)) (t : Transaction) (k : κ) :
    findVal k (groupStep key upd start acc t) =
      if key t = k then
        some (match findVal k acc with
          | some v => upd v t
          | none => start t)
      else findVal k acc := by
  by_cases hpres : (acc.find? (fun e => decide (e.1 = key t))).isSome
  · unfold groupStep findVal
    rw [if_pos hpres,
      find?_map_keyfix _ _ (fun e => by by_cases h : e.1 = key t <;> simp [h])]
    by_cases hk : key t = k
    · subst hk
      cases hfind : acc.find? (fun e => decide (e.1 = key t)) with
      | none => rw [hfind] at hpres; simp at hpres
      | some e =>
        have he1 : e.1 = key t := by
          have := List.find?_some hfind
          simpa using this
        simp [hfind, findVal, he1]
    · cases hfind : acc.find? (fun e => decide (e.1 = k)) with
      | none => simp [hfind, hk, findVal]
      | some e =>
        have he1 : e.1 = k := by
          have := List.find?_some hfind
          simpa using this
        have hne : ¬(e.1 = key t) := by
          rw [he1]; exact fun h => hk h.symm
        simp [hfind, hk, findVal, hne]
  · unfold groupStep findVal
    rw [if_neg hpres, List.find?_append]
    have hnone : acc.find? (fun e => decide (e.1 = key t)) = none :=
      Option.not_isSome_iff_eq_none.mp hpres
    by_cases hk : key t = k
    · subst hk
      simp [hnone, findVal]
    · have hsingle : ([(key t, start t)].find? (fun e => decide (e.1 = k))) = none := by
        simp [List.find?, hk]
      rw [hsingle]
      simp [hk]

/-- The tail of the accumulation restricted to a single key. -/
def tallyOpt (ov : Option υ) (l : List Transaction) : Option υ :=
  l.foldl (fun ov t => some (match ov with | some v => upd v t | none => start t)) ov

theorem findVal_groupFoldAux (ts : List Transaction) (acc : List (κ × υ)) (k : κ) :
    findVal k (ts.foldl (groupStep key upd start) acc) =
      tallyOpt upd start (findVal k acc)
        (ts.filter (fun t => decide (key t = k))) := by
  induction ts generalizing acc with
  | nil => rfl
  | cons t ts ih =>
    rw [List.foldl_cons, ih]
    by_cases hk : key t = k
    · rw [List.filter_cons_of_pos (by simp [hk]), findVal_groupStep, if_pos hk]
      simp [tallyOpt, List.foldl_cons]
    · rw [List.filter_cons_of_neg (by simp [hk]), findVal_groupStep, if_neg hk]

theorem findVal_groupFold (ts : List Transaction) (k : κ) :
    findVal k (groupFold key upd start ts) =
      tallyOpt upd start none (ts.filter (fun t => decide (key t = k))) := by
  unfold groupFold
  rw [findVal_groupFoldAux]
  rfl

theorem tallyOpt_some (v : υ) (l : List Transaction) :
    tallyOpt upd start (some v) l = some (l.foldl upd v) := by
  induction l generalizing v with
  | nil => rfl
  | cons t l ih => simp [tallyOpt, List.foldl_cons] at ih ⊢; exact ih (upd v t)

theorem tallyOpt_none (d : υ) (hstart : ∀ t, start t = upd d t)
    (l : List Transaction) :
    tallyOpt upd start none l =
      if l.isEmpty then none else some (l.foldl upd d) := by
  cases l with
  | nil => rfl
  | cons t l =>
    have : tallyOpt upd start none (t :: l) = tallyOpt upd start (some (start t)) l := by
      simp [tallyOpt, List.foldl_cons]
    rw [this, tallyOpt_some, hstart]
    simp [List.foldl_cons]

theorem keys_groupStep (acc : List (κ × υ)) (t : Transaction) :
    (groupStep key upd start acc t).map (·.1) =
      if (acc.find? (fun e => decide (e.1 = key t))).isSome then acc.map (·.1)
      else acc.map (·.1) ++ [key t] := by
  by_cases hpres : (acc.find? (fun e => decide (e.1 = key t))).isSome
  · rw [if_pos hpres]
    unfold groupStep
    rw [if_pos hpres, List.map_map]
    apply List.map_congr_left
    intro e _
    by_cases h : e.1 = key t <;> simp [h]
  · rw [if_neg hpres]
    unfold groupStep
    rw [if_neg hpres, List.map_append]
    rfl

theorem keys_nodup_groupStep (acc : List (κ × υ)) (t : Transaction)
    (h : (acc.map (·.1)).Nodup) :
    ((groupStep key upd start acc t).map (·.1)).Nodup := by
  rw [keys_groupStep]
  by_cases hpres : (acc.find? (fun e => decide (e.1 = key t))).isSome
  · rw [if_pos hpres]; exact h
  · rw [if_neg hpres, List.nodup_append]
    refine ⟨h, List.nodup_singleton _, ?_⟩
    intro a ha hb
    rw [List.mem_singleton] at hb
    subst hb
    rcases List.mem_map.mp ha with ⟨e, he, he1⟩
    have hnone : acc.find? (fun e => decide (e.1 = key t)) = none :=
      Option.not_isSome_iff_eq_none.mp hpres
    have := List.find?_eq_none.mp hnone e he
    simp [he1] at this

theorem keys_nodup_groupFold (ts : List Transaction) :
    ((groupFold key upd start ts).map (·.1)).Nodup := by
  have aux : ∀ (ts : List Transaction) (acc : List (κ × υ)),
      (acc.map (·.1)).Nodup →
      ((ts.foldl (groupStep key upd start) acc).map (·.1)).Nodup := by
    intro ts
    induction ts with
    | nil => intro acc h; exact h
    | cons t ts ih =>
      intro acc h
      rw [List.foldl_cons]
      exact ih _ (keys_nodup_groupStep key upd start acc t h)
  exact aux ts [] (by simp)

theorem findVal_of_mem_nodup (l : List (κ × υ)) (h : (l.map (·.1)).Nodup)
    (e : κ × υ) (he : e ∈ l) : findVal e.1 l = some e.2 := by
  induction l with
  | nil => cases he
  | cons a l ih =>
    rw [List.map_cons, List.nodup_cons] at h
    rcases List.mem_cons.mp he with rfl | he'
    · unfold findVal
      rw [List.find?_cons_of_pos _ (by simp)]
      rfl
    · by_cases hk : a.1 = e.1
      · exfalso
        apply h.1
        rw [hk]
        exact List.mem_map.mpr ⟨e, he', rfl⟩
      · unfold findVal
        rw [List.find?_cons_of_neg _ (by simp [hk])]
        exact ih h.2 he'

theorem findVal_isSome_iff_mem_keys (l : List (κ × υ)) (k : κ) :
    (findVal k l).isSome = true ↔ k ∈ l.map (·.1) := by
  unfold findVal
  constructor
  · intro h
    cases hfind : l.find? (fun e => decide (e.1 = k)) with
    | none => rw [hfind] at h; simp at h
    | some e =>
      have hk := List.find?_some hfind
      simp only [decide_eq_true_eq] at hk
      exact List.mem_map.mpr ⟨e, List.mem_of_find?_eq_some hfind, hk⟩
  · intro hk
    rcases List.mem_map.mp hk with ⟨e, he, he1⟩
    have hsome : (l.find? (fun e => decide (e.1 = k))).isSome :=
      List.find?_isSome.mpr ⟨e, he, by simp [he1]⟩
    cases hfind : l.find? (fun e => decide (e.1 = k)) with
    | none => rw [hfind] at hsome; simp at hsome
    | some e' => rfl

theorem length_filter_key_nodup (l : List (κ × υ)) (h : (l.map (·.1)).Nodup)
    (k : κ) :
    (l.filter (fun e => decide (e.1 = k))).length =
      if k ∈ l.map (·.1) then 1 else 0 := by
  induction l with
  | nil => simp
  | cons a l ih =>
    rw [List.map_cons, List.nodup_cons] at h
    by_cases hk : a.1 = k
    · subst hk
      rw [List.filter_cons_of_pos (by simp)]
      have hnot : ¬(a.1 ∈ l.map (·.1)) := h.1
      simp only [List.length_cons, ih h.2, if_neg hnot, List.map_cons]
      simp
    · rw [List.filter_cons_of_neg (by simp [hk]), ih h.2]
      have : (k ∈ (a :: l).map (·.1)) ↔ (k ∈ l.map (·.1)) := by
        simp [List.map_cons, List.mem_cons]
        intro h'
        exact absurd h'.symm hk
      by_cases hmem : k ∈ l.map (·.1)
      · rw [if_pos hmem, if_pos (this.mpr hmem)]
      · rw [if_neg hmem, if_neg (fun hc => hmem (this.mp hc))]

section GroupSum

variable {M : Type} [AddCommMonoid M] (μ : υ → M) (w : Transaction → M)

theorem map_update_untouched (l : List (κ × υ)) (k : κ) (g : υ → υ)
    (hnone : ∀ e ∈ l, ¬(e.1 = k)) :
    l.map (fun e => if e.1 = k then (e.1, g e.2) else e) = l := by
  induction l with
  | nil => rfl
  | cons a l ih =>
    rw [List.map_cons, if_neg (hnone a (List.mem_cons_self a l)),
      ih (fun e he => hnone e (List.mem_cons_of_mem a he))]

theorem sum_map_update_key (l : List (κ × υ)) (k : κ) (g : υ → υ) (δ : M)
    (hg : ∀ v, μ (g v) = μ v + δ) (h : (l.map (·.1)).Nodup)
    (hmem : k ∈ l.map (·.1)) :
    ((l.map (fun e => if e.1 = k then (e.1, g e.2) else e)).map
      (fun e => μ e.2)).sum = (l.map (fun e => μ e.2)).sum + δ := by
  induction l with
  | nil => simp at hmem
  | cons a l ih =>
    rw [List.map_cons, List.nodup_cons] at h
    by_cases hk : a.1 = k
    · subst hk
      rw [List.map_cons, if_pos rfl,
        map_update_untouched l a.1 g (fun e he heq => h.1 (heq ▸ List.mem_map.mpr ⟨e, he, rfl⟩))]
      simp only [List.map_cons, List.sum_cons, hg]
      rw [add_assoc, add_comm δ, ← add_assoc]
    · have hmem' : k ∈ l.map (·.1) := by
        rcases List.mem_map.mp hmem with ⟨e, he, he1⟩
        rcases List.mem_cons.mp he with rfl | he'
        · exact absurd he1 hk
        · exact List.mem_map.mpr ⟨e, he', he1⟩
      rw [List.map_cons, if_neg hk]
      simp only [List.map_cons, List.sum_cons]
      rw [ih h.2 hmem', add_assoc]

theorem groupStep_sum (hupd : ∀ v t, μ (upd v t) = μ v + w t)
    (hstart : ∀ t, μ (start t) = w t) (acc : List (κ × υ)) (t : Transaction)
    (h : (acc.map (·.1)).Nodup) :
    ((groupStep key upd start acc t).map (fun e => μ e.2)).sum =
      (acc.map (fun e => μ e.2)).sum + w t := by
  by_cases hpres : (acc.find? (fun e => decide (e.1 = key t))).isSome
  · unfold groupStep
    rw [if_pos hpres]
    have hmem : key t ∈ acc.map (·.1) := by
      rcases List.find?_isSome.mp hpres with ⟨e, he, hk⟩
      simp only [decide_eq_true_eq] at hk
      exact List.mem_map.mpr ⟨e, he, hk⟩
    exact sum_map_update_key μ acc (key t) (fun v => upd v t) (w t)
      (fun v => hupd v t) h hmem
  · unfold groupStep
    rw [if_neg hpres, List.map_append, List.sum_append]
    simp [hstart]

theorem groupFold_sum (hupd : ∀ v t, μ (upd v t) = μ v + w t)
    (hstart : ∀ t, μ (start t) = w t) (ts : List Transaction) :
    ((groupFold key upd start ts).map (fun e => μ e.2)).sum = (ts.map w).sum := by
  have aux : ∀ (ts : List Transaction) (acc : List (κ × υ)),
      (acc.map (·.1)).Nodup →
      ((ts.foldl (groupStep key upd start) acc).map (fun e => μ e.2)).sum =
        (acc.map (fun e => μ e.2)).sum + (ts.map w).sum := by
    intro ts
    induction ts with
    | nil => intro acc h; simp
    | cons t ts ih =>
      intro acc h
      rw [List.foldl_cons, ih _ (keys_nodup_groupStep key upd start acc t h),
        groupStep_sum key upd start μ w hupd hstart acc t h]
      simp only [List.map_cons, List.sum_cons]
      rw [add_assoc]
  have := aux ts [] (by simp)
  simpa using this

end GroupSum

end Grouping

/-! ### C5 / C6 — reporting rollups (`ReportsPage` in the reports module) -/

/-- `filterTransactionsByDateRange`: keeps the transactions dated on or
after `daysAgo` (today minus the selected range). -/
def filterTransactionsByDateRange (daysAgo : Date)
    (transactions : List Transaction) : List Transaction :=
  transactions.filter (fun t => dateLe daysAgo t.transaction_date)

/-- The grouping key `` `${date.getFullYear()}-${month}` `` of
`getMonthlyData`, represented as the (year, month) pair it encodes. -/
def monthKey (d : Date) : Nat × Nat := (d.year, d.month)

/-- One `forEach` body step of `getMonthlyData`: an `'income'` transaction
adds to the month's income, any other adds to its expenses. -/
def addTx (v : Int × Int) (t : Transaction) : Int × Int :=
  if t.type = TxType.income then (v.1 + t.amount, v.2) else (v.1, v.2 + t.amount)

/-- The fresh value a month receives: `{ income: 0, expenses: 0 }`
followed by the first addition. -/
def monthStart (t : Transaction) : Int × Int := addTx (0, 0) t

/-- The `monthlyMap` accumulated by `getMonthlyData`. -/
def monthlyMap (ts : List Transaction) : List ((Nat × Nat) × (Int × Int)) :=
  groupFold (fun t => monthKey t.transaction_date) addTx monthStart ts

/-- The `MonthlyData` entries of the reports page; `month` holds the
(year, month) key whose `toLocaleDateString` rendering the page displays. -/
structure MonthlyData where
  month : Nat × Nat
  income : Int
  expenses : Int
  net : Int
deriving DecidableEq, Repr

/-- The `'en-US'` short month name used in the displayed label. -/
def monthAbbrev : Nat → String
  | 1 => "Jan"
  | 2 => "Feb"
  | 3 => "Mar"
  | 4 => "Apr"
  | 5 => "May"
  | 6 => "Jun"
  | 7 => "Jul"
  | 8 => "Aug"
  | 9 => "Sep"
  | 10 => "Oct"
  | 11 => "Nov"
  | 12 => "Dec"
  | _ => "Invalid Date"

/-- The label `new Date(month + '-01').toLocaleDateString('en-US',
{ month: 'short', year: 'numeric' })` by which `getMonthlyData` sorts. -/
def monthLabel (k : Nat × Nat) : String :=
  monthAbbrev k.2 ++ " " ++ toString k.1

/-- Lexicographic comparison of character lists by code point. -/
def charListLe : List Char → List Char → Bool
  | [], _ => true
  | _ :: _, [] => false
  | a :: as, b :: bs =>
    if a.toNat < b.toNat then true
    else if b.toNat < a.toNat then false
    else charListLe as bs

/-- The string ordering `a.localeCompare(b) <= 0` of the sort comparator,
modelled as code-point lexicographic order. -/
def strLe (a b : String) : Bool := charListLe a.data b.data

/-- `getMonthlyData`: date-filter, group by month, emit
income/expenses/net per month, and sort by the rendered label
(`localeCompare`; `Array.prototype.sort` is stable, as is
`insertionSort`). -/
def getMonthlyData (daysAgo : Date) (transactions : List Transaction) :
    List MonthlyData :=
  ((monthlyMap (filterTransactionsByDateRange daysAgo transactions)).map
    (fun e =>
      { month := e.1, income := e.2.1, expenses := e.2.2,
        net := e.2.1 - e.2.2 : MonthlyData })).insertionSort
    (fun a b => strLe (monthLabel a.month) (monthLabel b.month) = true)

/-- One `forEach` body step of `getCategoryData`: add the amount, bump the
count. -/
def catUpd (v : Int × Nat) (t : Transaction) : Int × Nat :=
  (v.1 + t.amount, v.2 + 1)

/-- The fresh value a category receives: `{ amount: 0, count: 0 }`
followed by the first addition. -/
def catStart (t : Transaction) : Int × Nat := catUpd (0, 0) t

/-- The `categoryMap` accumulated by `getCategoryData`. -/
def categoryMap (ts : List Transaction) : List (String × (Int × Nat)) :=
  groupFold (fun t => t.category) catUpd catStart ts

/-- `category.replace(/_/g, ' ')`: the global regex replace of every
underscore by a space. -/
def replaceUnderscores (s : String) : String :=
  String.mk (s.data.map (fun c => if c = '_' then ' ' else c))

/-- The `CategoryData` entries of the reports page. -/
structure CategoryData where
  category : String
  amount : Int
  count : Nat
deriving DecidableEq, Repr

/-- `getCategoryData`: date-filter, keep the requested type, group by
category, render the category (`replace(/_/g, ' ')`), and sort by
descending amount (`(a, b) => b.amount - a.amount`; `Array.prototype.sort`
is stable, as is `insertionSort`). -/
def getCategoryData (daysAgo : Date) (ty : TxType)
    (transactions : List Transaction) : List CategoryData :=
  let filteredTransactions :=
    (filterTransactionsByDateRange daysAgo transactions).filter
      (fun t => decide (t.type = ty))
  ((categoryMap filteredTransactions).map
    (fun e =>
      { category := replaceUnderscores e.1, amount := e.2.1,
        count := e.2.2 : CategoryData })).insertionSort
    (fun a b => b.amount ≤ a.amount)

/-- Sum of the `'income'` amounts of a transaction list. -/
def sumIncome (l : List Transaction) : Int :=
  ((l.filter (fun t => decide (t.type = TxType.income))).map (·.amount)).sum

/-- Sum of the `'expense'` amounts of a transaction list. -/
def sumExpense (l : List Transaction) : Int :=
  ((l.filter (fun t => decide (t.type = TxType.expense))).map (·.amount)).sum

theorem foldl_addTx (l : List Transaction) (v : Int × Int) :
    l.foldl addTx v = (v.1 + sumIncome l, v.2 + sumExpense l) := by
  induction l generalizing v with
  | nil => simp [sumIncome, sumExpense]
  | cons t l ih =>
    rw [List.foldl_cons, ih]
    cases htype : t.type with
    | income =>
      have hne : t.type ≠ TxType.expense := by rw [htype]; intro h; cases h
      simp only [addTx, htype, if_pos rfl, sumIncome, sumExpense,
        List.filter_cons, decide_eq_true_eq, htype, hne, if_neg,
        Prod.mk.injEq]
      constructor
      · simp [htype]; ring
      · simp [hne]
    | expense =>
      have hne : t.type ≠ TxType.income := by rw [htype]; intro h; cases h
      simp only [addTx, htype, sumIncome, sumExpense, List.filter_cons,
        decide_eq_true_eq, Prod.mk.injEq]
      constructor
      · simp [hne]
      · simp [htype]; ring

theorem foldl_catUpd (l : List Transaction) (v : Int × Nat) :
    l.foldl catUpd v = (v.1 + (l.map (·.amount)).sum, v.2 + l.length) := by
  induction l generalizing v with
  | nil => simp
  | cons t l ih =>
    rw [List.foldl_cons, ih]
    simp only [catUpd, List.map_cons, List.sum_cons, List.length_cons,
      Prod.mk.injEq]
    constructor
    · ring
    · omega

theorem sum_map_one (l : List Transaction) :
    (l.map (fun _ => (1 : Nat))).sum = l.length := by
  induction l with
  | nil => rfl
  | cons t l ih => simp [ih]; omega

theorem monthlyMap_entry (ts : List Transaction) :
    ∀ e ∈ monthlyMap ts,
      e.2 = (sumIncome (ts.filter (fun t => decide (monthKey t.transaction_date = e.1))),
        sumExpense (ts.filter (fun t => decide (monthKey t.transaction_date = e.1)))) ∧
      ts.filter (fun t => decide (monthKey t.transaction_date = e.1)) ≠ [] := by
  intro e he
  have hnodup :=
    keys_nodup_groupFold (fun t => monthKey t.transaction_date) addTx monthStart ts
  have hfv : findVal e.1 (monthlyMap ts) = some e.2 :=
    findVal_of_mem_nodup _ hnodup e he
  unfold monthlyMap at hfv
  rw [findVal_groupFold, tallyOpt_none addTx monthStart (0, 0) (fun t => rfl)] at hfv
  by_cases hemp :
      (ts.filter (fun t => decide (monthKey t.transaction_date = e.1))).isEmpty
  · rw [if_pos hemp] at hfv
    cases hfv
  · rw [if_neg hemp] at hfv
    have h2 := Option.some.inj hfv
    rw [foldl_addTx] at h2
    refine ⟨?_, ?_⟩
    · rw [← h2]
      simp [sumIncome, sumExpense]
    · intro hnil
      rw [hnil] at hemp
      exact hemp rfl

theorem monthlyMap_keys_iff (ts : List Transaction) (k : Nat × Nat) :
    k ∈ (monthlyMap ts).map (·.1) ↔
      ts.any (fun t => decide (monthKey t.transaction_date = k)) = true := by
  rw [← findVal_isSome_iff_mem_keys]
  unfold monthlyMap
  rw [findVal_groupFold, tallyOpt_none addTx monthStart (0, 0) (fun t => rfl)]
  by_cases hemp :
      (ts.filter (fun t => decide (monthKey t.transaction_date = k))).isEmpty
  · rw [if_pos hemp]
    simp only [Option.isSome_none, Bool.false_eq_true, false_iff]
    intro hany
    rcases List.any_eq_true.mp hany with ⟨t, ht, hpt⟩
    have hmem : t ∈ ts.filter (fun t => decide (monthKey t.transaction_date = k)) :=
      List.mem_filter.mpr ⟨ht, hpt⟩
    rw [List.isEmpty_iff.mp hemp] at hmem
    cases hmem
  · rw [if_neg hemp]
    simp only [Option.isSome_some, true_iff]
    have hne : ts.filter (fun t => decide (monthKey t.transaction_date = k)) ≠ [] :=
      fun hnil => hemp (by rw [hnil]; rfl)
    rcases List.exists_mem_of_ne_nil _ hne with ⟨t, ht⟩
    rcases List.mem_filter.mp ht with ⟨ht', hpt⟩
    exact List.any_eq_true.mpr ⟨t, ht', hpt⟩

theorem categoryMap_entry (ts : List Transaction) :
    ∀ e ∈ categoryMap ts,
      e.2 = (((ts.filter (fun t => decide (t.category = e.1))).map (·.amount)).sum,
        (ts.filter (fun t => decide (t.category = e.1))).length) ∧
      ts.filter (fun t => decide (t.category = e.1)) ≠ [] := by
  intro e he
  have hnodup := keys_nodup_groupFold (fun t => t.category) catUpd catStart ts
  have hfv : findVal e.1 (categoryMap ts) = some e.2 :=
    findVal_of_mem_nodup _ hnodup e he
  unfold categoryMap at hfv
  rw [findVal_groupFold, tallyOpt_none catUpd catStart (0, 0) (fun t => rfl)] at hfv
  by_cases hemp : (ts.filter (fun t => decide (t.category = e.1))).isEmpty
  · rw [if_pos hemp] at hfv
    cases hfv
  · rw [if_neg hemp] at hfv
    have h2 := Option.some.inj hfv
    rw [foldl_catUpd] at h2
    refine ⟨?_, ?_⟩
    · rw [← h2]
      simp
    · intro hnil
      rw [hnil] at hemp
      exact hemp rfl

/-- C5 — Monthly rollup correctness: over the date-filtered transactions,
`getMonthlyData` has exactly one entry for each (year, month) with at
least one filtered transaction (and none for any other month), and each
entry's income and expenses are the sums of that month's `'income'` and
`'expense'` amounts, with `net` their difference. -/
theorem getMonthlyData_rollup (daysAgo : Date) (transactions : List Transaction) :
    (∀ k : Nat × Nat,
      ((getMonthlyData daysAgo transactions).filter
        (fun e => decide (e.month = k))).length =
        (if (filterTransactionsByDateRange daysAgo transactions).any
          (fun t => decide (monthKey t.transaction_date = k)) = true then 1 else 0)) ∧
    (∀ e ∈ getMonthlyData daysAgo transactions,
      e.income = sumIncome ((filterTransactionsByDateRange daysAgo transactions).filter
        (fun t => decide (monthKey t.transaction_date = e.month))) ∧
      e.expenses = sumExpense ((filterTransactionsByDateRange daysAgo transactions).filter
        (fun t => decide (monthKey t.transaction_date = e.month))) ∧
      e.net = e.income - e.expenses) := by
  have hgm : getMonthlyData daysAgo transactions =
      ((monthlyMap (filterTransactionsByDateRange daysAgo transactions)).map
        (fun e =>
          { month := e.1, income := e.2.1, expenses := e.2.2,
            net := e.2.1 - e.2.2 : MonthlyData })).insertionSort
        (fun a b => strLe (monthLabel a.month) (monthLabel b.month) = true) := rfl
  have hperm := List.perm_insertionSort
    (fun (a b : MonthlyData) => strLe (monthLabel a.month) (monthLabel b.month) = true)
    ((monthlyMap (filterTransactionsByDateRange daysAgo transactions)).map
      (fun e =>
        { month := e.1, income := e.2.1, expenses := e.2.2,
          net := e.2.1 - e.2.2 : MonthlyData }))
  rw [← hgm] at hperm
  constructor
  · intro k
    have h1 := (hperm.filter (fun e => decide (e.month = k))).length_eq
    rw [h1]
    have h2 : ((monthlyMap (filterTransactionsByDateRange daysAgo transactions)).map
        (fun e =>
          { month := e.1, income := e.2.1, expenses := e.2.2,
            net := e.2.1 - e.2.2 : MonthlyData })).filter
          (fun e => decide (e.month = k)) =
        ((monthlyMap (filterTransactionsByDateRange daysAgo transactions)).filter
          (fun e => decide (e.1 = k))).map
          (fun e =>
            { month := e.1, income := e.2.1, expenses := e.2.2,
              net := e.2.1 - e.2.2 : MonthlyData }) := by
      rw [List.filter_map]
      rfl
    have hnodup : ((monthlyMap (filterTransactionsByDateRange daysAgo
        transactions)).map (·.1)).Nodup :=
      keys_nodup_groupFold (fun t => monthKey t.transaction_date) addTx monthStart _
    rw [h2, List.length_map, length_filter_key_nodup _ hnodup k]
    by_cases hany : (filterTransactionsByDateRange daysAgo transactions).any
        (fun t => decide (monthKey t.transaction_date = k)) = true
    · rw [if_pos ((monthlyMap_keys_iff _ k).mpr hany), if_pos hany]
    · rw [if_neg (fun hc => hany ((monthlyMap_keys_iff _ k).mp hc)), if_neg hany]
  · intro e he
    have he' := hperm.mem_iff.mp he
    rcases List.mem_map.mp he' with ⟨x, hx, hxe⟩
    have hval := (monthlyMap_entry _ x hx).1
    subst hxe
    refine ⟨?_, ?_, rfl⟩
    · show x.2.1 = sumIncome
        ((filterTransactionsByDateRange daysAgo transactions).filter
          (fun t => decide (monthKey t.transaction_date = x.1)))
      rw [hval]
    · show x.2.2 = sumExpense
        ((filterTransactionsByDateRange daysAgo transactions).filter
          (fun t => decide (monthKey t.transaction_date = x.1)))
      rw [hval]

/-- A sample date-range cutoff for witnesses. -/
def sampleDaysAgo : Date := ⟨2025, 1, 1⟩

/-- Sample transactions: two February 2025 rows, one March 2025 row, and
one row outside the date range. -/
def sampleTxs : List Transaction :=
  [ { type := .income, category := "hoa_fees", amount := 100,
      transaction_date := ⟨2025, 2, 10⟩ },
    { type := .expense, category := "repairs", amount := 30,
      transaction_date := ⟨2025, 2, 11⟩ },
    { type := .income, category := "other", amount := 5,
      transaction_date := ⟨2025, 3, 1⟩ },
    { type := .income, category := "old", amount := 7,
      transaction_date := ⟨2024, 1, 1⟩ } ]

/-- The February 2025 rollup entry of `sampleTxs`. -/
def sampleMonthEntry : MonthlyData :=
  { month := (2025, 2), income := 100, expenses := 30, net := 70 }

/-- Witness for C5: the theorem applied at the February 2025 entry of the
sample transactions. -/
theorem getMonthlyData_rollup_witness :
    sampleMonthEntry ∈ getMonthlyData sampleDaysAgo sampleTxs ∧
    sampleMonthEntry.income = sumIncome
      ((filterTransactionsByDateRange sampleDaysAgo sampleTxs).filter
        (fun t => decide (monthKey t.transaction_date = sampleMonthEntry.month))) :=
  ⟨by decide,
    ((getMonthlyData_rollup sampleDaysAgo sampleTxs).2 sampleMonthEntry (by decide)).1⟩

/-- C6 — Category rollup is a partition homomorphism: `getCategoryData`
is sorted in non-increasing order of amount, every entry's count is at
least 1, the entries' amounts sum to the total amount of the
date-and-type-filtered transactions, and the entries' counts sum to the
number of those transactions. -/
theorem getCategoryData_partition (daysAgo : Date) (ty : TxType)
    (transactions : List Transaction) :
    (getCategoryData daysAgo ty transactions).Pairwise
      (fun a b => b.amount ≤ a.amount) ∧
    (∀ e ∈ getCategoryData daysAgo ty transactions, 1 ≤ e.count) ∧
    ((getCategoryData daysAgo ty transactions).map (·.amount)).sum =
      (((filterTransactionsByDateRange daysAgo transactions).filter
        (fun t => decide (t.type = ty))).map (·.amount)).sum ∧
    ((getCategoryData daysAgo ty transactions).map (·.count)).sum =
      ((filterTransactionsByDateRange daysAgo transactions).filter
        (fun t => decide (t.type = ty))).length := by
  have hgc : getCategoryData daysAgo ty transactions =
      ((categoryMap ((filterTransactionsByDateRange daysAgo transactions).filter
        (fun t => decide (t.type = ty)))).map
        (fun e =>
          { category := replaceUnderscores e.1, amount := e.2.1,
            count := e.2.2 : CategoryData })).insertionSort
        (fun a b => b.amount ≤ a.amount) := rfl
  have hperm := List.perm_insertionSort
    (fun (a b : CategoryData) => b.amount ≤ a.amount)
    ((categoryMap ((filterTransactionsByDateRange daysAgo transactions).filter
      (fun t => decide (t.type = ty)))).map
      (fun e =>
        { category := replaceUnderscores e.1, amount := e.2.1,
          count := e.2.2 : CategoryData }))
  rw [← hgc] at hperm
  refine ⟨?_, ?_, ?_, ?_⟩
  · rw [hgc]
    haveI : IsTotal CategoryData (fun a b => b.amount ≤ a.amount) :=
      ⟨fun a b => le_total b.amount a.amount⟩
    haveI : IsTrans CategoryData (fun a b => b.amount ≤ a.amount) :=
      ⟨fun a b c hab hbc => le_trans hbc hab⟩
    exact List.sorted_insertionSort _ _
  · intro e he
    have he' := hperm.mem_iff.mp he
    rcases List.mem_map.mp he' with ⟨x, hx, hxe⟩
    have hval := categoryMap_entry _ x hx
    subst hxe
    show 1 ≤ x.2.2
    have h22 : x.2.2 = (((filterTransactionsByDateRange daysAgo transactions).filter
        (fun t => decide (t.type = ty))).filter
        (fun t => decide (t.category = x.1))).length := by
      rw [hval.1]
    rw [h22]
    exact List.length_pos.mpr hval.2
  · have hmapamount := (hperm.map (fun (e : CategoryData) => e.amount)).sum_eq
    rw [hmapamount, List.map_map]
    exact groupFold_sum (fun t => t.category) catUpd catStart
      (fun v => v.1) (fun t => t.amount) (fun v t => rfl)
      (fun t => by simp [catStart, catUpd])
      ((filterTransactionsByDateRange daysAgo transactions).filter
        (fun t => decide (t.type = ty)))
  · have hmapcount := (hperm.map (fun (e : CategoryData) => e.count)).sum_eq
    rw [hmapcount, List.map_map]
    have hsum := groupFold_sum (fun t => t.category) catUpd catStart
      (fun v => v.2) (fun _ => (1 : Nat)) (fun v t => rfl) (fun t => rfl)
      ((filterTransactionsByDateRange daysAgo transactions).filter
        (fun t => decide (t.type = ty)))
    exact hsum.trans (sum_map_one _)

/-- The dominant income category entry of `sampleTxs`. -/
def sampleCatEntry : CategoryData :=
  { category := "hoa fees", amount := 100, count := 1 }

/-- Witness for C6: the theorem applied at the concrete `hoa fees` entry
of the sample transactions. -/
theorem getCategoryData_partition_witness :
    sampleCatEntry ∈ getCategoryData sampleDaysAgo TxType.income sampleTxs ∧
    1 ≤ sampleCatEntry.count :=
  ⟨by decide,
    (getCategoryData_partition sampleDaysAgo TxType.income sampleTxs).2.1
      sampleCatEntry (by decide)⟩
